import Mathlib

/-!
Verification of the borrd publishing tool's folder/page data model.

This file shallowly embeds the server-side request handlers of the
repository (src/pages/api/publish.ts, src/pages/api/delete-page.ts,
src/pages/api/move-folder.ts, the folders handler, the slug page's
getServerSideProps, and the dashboard sidebar builder) as pure Lean
functions over an explicit database state, and proves or refutes the
specification's claims about them.

Modelling conventions:
- The Supabase relational store is a pair of lists (`pages`, `folders`);
  each query in the source becomes a `List.filter` / `List.find?` over it,
  and `.single()` becomes the `single` function below (PostgREST: ok on
  exactly one row, error code PGRST116 on zero rows, another error code on
  several rows).
- User ids (UUIDs) and timestamps (ISO strings) are modelled as `Nat`.
- JavaScript truthiness on request fields is modelled explicitly:
  a number field is truthy when present and nonzero (`truthyNum`), a string
  field when present and nonempty (`truthyStr`).
- Handlers take the authenticated user (`Option Nat`, the result of
  `getAuthenticatedUser`) and the request method as parameters; the
  identity provider itself is external to the repository.
- The one query whose failure a claim is about (the folder list fetched
  inside `isDescendant` in move-folder.ts) is passed to the handler as an
  `Except Unit (List Folder)`; every other query is modelled on its success
  path, computed from the state.
- The unbounded JavaScript recursions (`checkDescendant` in move-folder.ts,
  `processFolder` in dashboard.tsx) are given a fuel parameter; the callers
  pass `folders.length + 1` fuel, which is proved sufficient on acyclic
  folder data (on cyclic data the JavaScript originals do not terminate).
-/

namespace Borrd

/-- A row of the `pages` table (part_000 schema plus the
user-auth-migration.sql `user_id` column). -/
structure Page where
  id : Nat
  slug : String
  markdown : String
  folder_id : Option Nat
  user_id : Nat
  deleted_at : Option Nat
  created_at : Nat
  updated_at : Nat
deriving DecidableEq, Repr

/-- A row of the `folders` table (part_000 schema plus `user_id`). -/
structure Folder where
  id : Nat
  name : String
  parent_id : Option Nat
  user_id : Nat
  created_at : Nat
  updated_at : Nat
deriving DecidableEq, Repr

/-- The relational store: the two tables the data-integrity core works on. -/
structure DB where
  pages : List Page
  folders : List Folder
deriving DecidableEq, Repr

/-- HTTP request methods used by the handlers. -/
inductive Method
  | GET | POST | DELETE | PUT
deriving DecidableEq, Repr

/-- An API handler response: status code plus the JSON fields the handlers
set (`error`, `action`, `success`). -/
structure HRes where
  status : Nat
  error : Option String := none
  action : Option String := none
  success : Bool := false
deriving DecidableEq, Repr

/-- PostgREST query errors distinguished by the handlers: PGRST116 means
"zero rows returned by .single()", anything else is some other failure. -/
inductive QErr
  | pgrst116
  | multiple
deriving DecidableEq, Repr

/-- PostgREST `.single()`: exactly one row succeeds, zero rows yields
PGRST116, more than one row yields a different error code. -/
def single {α : Type} (rows : List α) : Except QErr α :=
  match rows with
  | [r] => .ok r
  | [] => .error .pgrst116
  | _ => .error .multiple

/-- JavaScript truthiness of an optional numeric body field:
`folderId && typeof folderId === 'number'` is false for absent fields and
for the number 0. -/
def truthyNum (v : Option Nat) : Bool :=
  match v with
  | some n => n != 0
  | none => false

/-- JavaScript truthiness of an optional string field: absent and empty
strings are falsy. -/
def truthyStr (v : Option String) : Bool :=
  match v with
  | some s => s != ""
  | none => false

/-- `folderId || null` as the handlers store it: a falsy folder id
(absent or 0) becomes null. -/
def effFolderId (folderId : Option Nat) : Option Nat :=
  if truthyNum folderId then folderId else none

/-- The character class `[a-zA-Z0-9_-]` shared by the API regex in
publish.ts line 31 and the `valid_page_slug` CHECK constraint in
part_000 lines 70-72. -/
def slugCharOk (c : Char) : Bool :=
  ('a' ≤ c && c ≤ 'z') || ('A' ≤ c && c ≤ 'Z') || ('0' ≤ c && c ≤ '9')
    || c = '_' || c = '-'

/-- Full-string match of the pattern `^[a-zA-Z0-9_-]+$`: at least one
character, all characters in the class. Both the JavaScript regex and the
PostgreSQL `~` match with both anchors denote exactly this predicate. -/
def slugPatternMatch (s : String) : Bool :=
  !s.toList.isEmpty && s.toList.all slugCharOk

/-- publish.ts line 31: `/^[a-zA-Z0-9_-]+$/.test(slug)`. -/
def validSlug (s : String) : Bool :=
  slugPatternMatch s

/-- part_000 lines 70-72, the storage-level CHECK constraint:
`slug ~ '^[a-zA-Z0-9_-]+$' AND LENGTH(slug) > 0`. -/
def valid_page_slug (s : String) : Bool :=
  slugPatternMatch s && decide (0 < s.toList.length)

/-- Fresh primary key for an insert, modelling the SERIAL column. -/
def freshPageId (db : DB) : Nat :=
  (db.pages.map Page.id).foldr max 0 + 1

/-- The write phase of publish.ts (lines 49-105): look up the page by
`(slug, user_id)` with `.single()`; on a hit, update every row whose slug
matches (the source's update filters by `.eq('slug', slug)` only, without
a user filter) and answer `action: 'updated'`; on PGRST116 insert a fresh
row and answer `action: 'created'`; on any other fetch error answer 500. -/
def publishWrite (db : DB) (u now : Nat) (m s : String)
    (folder_id : Option Nat) : HRes × DB :=
  match single (db.pages.filter (fun p => p.slug == s && p.user_id == u)) with
  | .ok _ =>
      ({ status := 200, success := true, action := some "updated" },
       { db with pages := db.pages.map (fun p =>
           if p.slug == s then
             { p with markdown := m, folder_id := folder_id, updated_at := now }
           else p) })
  | .error .pgrst116 =>
      ({ status := 201, success := true, action := some "created" },
       { db with pages := db.pages ++
           [{ id := freshPageId db, slug := s, markdown := m,
              folder_id := folder_id, user_id := u, deleted_at := none,
              created_at := now, updated_at := now }] })
  | .error .multiple =>
      ({ status := 500, error := some "Failed to check existing page" }, db)

/-- publish.ts handler: authentication, method check, body validation,
slug-format validation, folder ownership validation, then the upsert. -/
def publish (db : DB) (user : Option Nat) (method : Method) (now : Nat)
    (markdown slug : Option String) (folderId : Option Nat) : HRes × DB :=
  match user with
  | none => ({ status := 401, error := some "Unauthorized" }, db)
  | some u =>
    if method != .POST then
      ({ status := 405, error := some "Method not allowed" }, db)
    else if !truthyStr markdown then
      ({ status := 400,
         error := some "markdown field is required and must be a string" }, db)
    else if !truthyStr slug then
      ({ status := 400,
         error := some "slug field is required and must be a string" }, db)
    else
      let m := markdown.getD ""
      let s := slug.getD ""
      if !validSlug s then
        ({ status := 400,
           error := some "slug must contain only letters, numbers, hyphens, and underscores" },
         db)
      else if truthyNum folderId then
        match single (db.folders.filter (fun f =>
            f.id == folderId.getD 0 && f.user_id == u)) with
        | .error _ => ({ status := 400, error := some "Invalid folder ID" }, db)
        | .ok _ => publishWrite db u now m s (effFolderId folderId)
      else
        publishWrite db u now m s (effFolderId folderId)

/-- The `(owner, slug)` uniqueness invariant of the spec and of the
`unique_user_slug` constraint in user-auth-migration.sql. -/
def PagesUnique (l : List Page) : Prop :=
  (l.map (fun p => (p.user_id, p.slug))).Nodup

/-- delete-page.ts handler (the soft-delete endpoint): authentication,
method check, then the page is fetched by `pageId` or `slug` with
`.single()` — with no `user_id` filter — and soft-deleted by setting
`deleted_at` and `updated_at`, again with no `user_id` filter. -/
def deletePage (db : DB) (user : Option Nat) (method : Method)
    (pageId : Option Nat) (slug : Option String) (now : Nat) : HRes × DB :=
  match user with
  | none => ({ status := 401, error := some "Unauthorized" }, db)
  | some _u =>
    if method != .DELETE then
      ({ status := 405, error := some "Method not allowed" }, db)
    else if !pageId.isSome && !truthyStr slug then
      ({ status := 400, error := some "Page ID or slug is required" }, db)
    else
      let rows :=
        match pageId with
        | some pid => db.pages.filter (fun p => p.id == pid)
        | none => db.pages.filter (fun p => p.slug == slug.getD "")
      match single rows with
      | .error _ => ({ status := 404, error := some "Page not found" }, db)
      | .ok page =>
          ({ status := 200, success := true },
           { db with pages := db.pages.map (fun p =>
               if p.id == page.id then
                 { p with deleted_at := some now, updated_at := now }
               else p) })

/-- The result of the slug page's `getServerSideProps` in [slug].tsx:
either Next.js `notFound: true`, error props, or the rendered page props.
The gray-matter frontmatter split is presentational and not modelled;
`rendered` carries the page's raw markdown. -/
inductive RenderResult
  | notFound
  | errorProps (msg : String)
  | rendered (content : String) (slug : String)
deriving DecidableEq, Repr

/-- [slug].tsx `getServerSideProps` (lines 28-92): fetch the page by slug
with `.single()` (no `deleted_at` filter) and render it; any fetch error
resolves to `notFound`. The Supabase configuration is assumed present. -/
def slugPageGetServerSideProps (db : DB) (slug : Option String) : RenderResult :=
  if !truthyStr slug then .notFound
  else
    let s := slug.getD ""
    match single (db.pages.filter (fun p => p.slug == s)) with
    | .error _ => .notFound
    | .ok page => .rendered page.markdown s

/-- `listActivePages` (dashboard.tsx getServerSideProps): pages with null
`deleted_at`. The source additionally orders by `created_at` descending;
ordering is irrelevant to the membership claims and not modelled. -/
def listActivePages (db : DB) : List Page :=
  db.pages.filter (fun p => p.deleted_at == none)

/-- `listDeletedPages` (dashboard.tsx getServerSideProps): pages with
non-null `deleted_at`, source-ordered by `deleted_at` descending. -/
def listDeletedPages (db : DB) : List Page :=
  db.pages.filter (fun p => p.deleted_at != none)

/-- The DELETE case of the folders handler (delete-page.ts file, second
handler, lines 140-201): check the folder exists and belongs to the user,
move the user's pages of this folder to uncategorized, reparent the user's
subfolders to the folder's own parent, then delete the folder row. -/
def foldersDelete (db : DB) (user : Option Nat) (folderId : Option Nat) :
    HRes × DB :=
  match user with
  | none => ({ status := 401, error := some "Unauthorized" }, db)
  | some u =>
    match folderId with
    | none => ({ status := 400, error := some "Folder ID is required" }, db)
    | some fid =>
      match single (db.folders.filter (fun f => f.id == fid && f.user_id == u)) with
      | .error _ => ({ status := 404, error := some "Folder not found" }, db)
      | .ok folderToDelete =>
          let pages1 := db.pages.map (fun p =>
            if p.folder_id == some fid && p.user_id == u then
              { p with folder_id := none }
            else p)
          let folders1 := db.folders.map (fun g =>
            if g.parent_id == some fid && g.user_id == u then
              { g with parent_id := folderToDelete.parent_id }
            else g)
          let folders2 := folders1.filter (fun g => !(g.id == fid && g.user_id == u))
          ({ status := 200, success := true },
           { pages := pages1, folders := folders2 })

/-- The parent of a folder id in the adjacency data, as the source reads
it row by row: the first row carrying that id. -/
def parentOf (fs : List Folder) (i : Nat) : Option Nat :=
  match fs.find? (fun f => f.id == i) with
  | some f => f.parent_id
  | none => none

/-- The children lists of move-folder.ts lines 114-123: the parent map is
built only from rows whose `parent_id` is truthy (non-null and nonzero). -/
def childrenOf (fs : List Folder) (p : Nat) : List Nat :=
  (fs.filter (fun f => truthyNum f.parent_id && f.parent_id.getD 0 == p)).map Folder.id

/-- move-folder.ts `checkDescendant` (lines 126-131): depth-first search
from `currentId` through the child lists, looking for `targetId`. The
JavaScript recursion is unbounded; `fuel` makes it total, and the caller's
`fs.length + 1` fuel is proved sufficient on acyclic data. -/
def checkDescendant (fs : List Folder) (targetId : Nat) :
    Nat → Nat → Bool
  | 0, _ => false
  | fuel + 1, currentId =>
    if currentId == targetId then true
    else (childrenOf fs currentId).any (checkDescendant fs targetId fuel)

/-- move-folder.ts `isDescendant` (lines 104-134): fetch all folder rows;
if the query errors, return false (the error branch is indistinguishable
from "no cycle found"); otherwise run the depth-first search. -/
def isDescendant (q : Except Unit (List Folder)) (targetId folderId : Nat) : Bool :=
  match q with
  | .error _ => false
  | .ok fs => checkDescendant fs targetId (fs.length + 1) folderId

/-- The `.eq('parent_id', targetParentId || null)` filter of the name
conflict check in move-folder.ts lines 64-70: a PostgREST `eq` against
null matches no row at all (matching NULL needs `is`), so with a falsy
target the conflict check finds nothing. -/
def eqParentFilter (targetParentId : Option Nat) (f : Folder) : Bool :=
  if truthyNum targetParentId then f.parent_id == some (targetParentId.getD 0)
  else false

/-- move-folder.ts handler (lines 8-101). No authentication is performed
and no query is scoped by user (the handler builds its own service-role
client). `descQ` is the result of the folder-list query made inside
`isDescendant`. -/
def moveFolder (db : DB) (descQ : Except Unit (List Folder)) (method : Method)
    (folderId targetParentId : Option Nat) (now : Nat) : HRes × DB :=
  if method != .POST then
    ({ status := 405, error := some "Method not allowed" }, db)
  else if !truthyNum folderId then
    ({ status := 400, error := some "Folder ID is required" }, db)
  else
    let fid := folderId.getD 0
    let cycleGate :=
      if truthyNum targetParentId then
        let tgt := targetParentId.getD 0
        match single (db.folders.filter (fun f => f.id == tgt)) with
        | .error _ =>
            some ({ status := 400,
                    error := some "Target parent folder does not exist" }, db)
        | .ok _ =>
          match single (db.folders.filter (fun f => f.id == fid)) with
          | .error _ =>
              some ({ status := 404, error := some "Folder to move not found" }, db)
          | .ok _ =>
            if isDescendant descQ tgt fid then
              some ({ status := 400,
                      error := some "Cannot move a folder into itself or its descendants" },
                    db)
            else none
      else none
    match cycleGate with
    | some r => r
    | none =>
      match single (db.folders.filter (fun f => f.id == fid)) with
      | .error _ => ({ status := 404, error := some "Folder not found" }, db)
      | .ok folderToMove =>
        match single (db.folders.filter (fun f =>
            f.name == folderToMove.name && eqParentFilter targetParentId f
              && f.id != fid)) with
        | .ok _ =>
            ({ status := 400,
               error := some "A folder with this name already exists in the target location" },
             db)
        | .error .multiple =>
            ({ status := 500, error := some "Failed to check for conflicts" }, db)
        | .error .pgrst116 =>
            ({ status := 200, success := true },
             { db with folders := db.folders.map (fun g =>
                 if g.id == fid then
                   { g with parent_id := effFolderId targetParentId,
                            updated_at := now }
                 else g) })

/-- A sidebar item's `id` string: `folder-${id}`, `page-${id}` or the
literal `'trash'`. The string format is injective in the numeric id, so it
is modelled structurally. -/
inductive ItemId
  | folder (id : Nat)
  | page (id : Nat)
  | trash
deriving DecidableEq, Repr

/-- A sidebar entry as built by dashboard.tsx `sidebarItems`. -/
structure SidebarItem where
  id : ItemId
  type : String
  name : String
  icon : String
  folderId : Option (Option Nat) := none
  pageCount : Option Nat := none
  level : Nat
deriving DecidableEq, Repr

/-- dashboard.tsx `processFolder` (lines 176-207): emit the folder, then
its own pages at one deeper indent (recording their ids as processed),
then recurse into its child folders. The accumulator pairs the item list
with the processed page-id set. Fuel bounds the JavaScript recursion,
which is unbounded (and non-terminating on cyclic folder data). -/
def processFolder (folders : List Folder) (pages : List Page) :
    Nat → Nat → Nat → List SidebarItem × List Nat → List SidebarItem × List Nat
  | 0, _, _, acc => acc
  | fuel + 1, folderId, level, acc =>
    match folders.find? (fun f => f.id == folderId) with
    | none => acc
    | some folder =>
      let folderPages := pages.filter (fun p => p.folder_id == some folderId)
      let acc1 := (acc.1 ++
        [{ id := .folder folderId, type := "folder", name := folder.name,
           icon := "📁", pageCount := some folderPages.length, level := level }],
        acc.2)
      let acc2 := folderPages.foldl (fun a page =>
        (a.1 ++ [{ id := .page page.id, type := "page", name := page.slug,
                   icon := "📄", folderId := some page.folder_id,
                   level := level + 1 }],
         a.2 ++ [page.id])) acc1
      let childFolders := folders.filter (fun f => f.parent_id == some folderId)
      childFolders.foldl
        (fun a child => processFolder folders pages fuel child.id (level + 1) a)
        acc2

/-- The synthetic Trash entry of dashboard.tsx lines 228-235. -/
def trashItem (deletedCount : Nat) : SidebarItem :=
  { id := .trash, type := "folder", name := "Trash", icon := "🗑️",
    pageCount := some deletedCount, level := 0 }

/-- The traversal phase of dashboard.tsx `sidebarItems` (lines 209-211):
fold `processFolder` over the top-level folders in store order, starting
from an empty item list and an empty processed set. -/
def sidebarAcc (folders : List Folder) (pages : List Page) :
    List SidebarItem × List Nat :=
  (folders.filter (fun f => f.parent_id == none)).foldl
    (fun a folder => processFolder folders pages (folders.length + 1) folder.id 0 a)
    ([], [])

/-- The level-0 item emitted for an uncategorized page
(dashboard.tsx lines 215-224; the source sets `folderId: null`). -/
def uncatItem (p : Page) : SidebarItem :=
  { id := .page p.id, type := "page", name := p.slug, icon := "📄",
    folderId := some none, level := 0 }

/-- dashboard.tsx `sidebarItems` (lines 171-239): process the top-level
folders in store order, then append the pages with null `folder_id` that
were not processed, at indent 0, then append the Trash entry when deleted
pages exist. -/
def sidebarItems (folders : List Folder) (pages deletedPages : List Page) :
    List SidebarItem :=
  let acc := sidebarAcc folders pages
  let uncategorized := pages.filter (fun p =>
    p.folder_id == none && !(acc.2.contains p.id))
  let items := acc.1 ++ uncategorized.map uncatItem
  if deletedPages.length > 0 then items ++ [trashItem deletedPages.length]
  else items

/-! ### Concrete states used by the examples, counterexamples and witnesses -/

/-- C7's spec example: folders Projects(root) and Web(parent = Projects). -/
def exFolders : List Folder :=
  [{ id := 1, name := "Projects", parent_id := none, user_id := 1,
     created_at := 0, updated_at := 0 },
   { id := 2, name := "Web", parent_id := some 1, user_id := 1,
     created_at := 0, updated_at := 0 }]

/-- C7's spec example: pages p1(folder = Projects), p2(folder = Web),
p3(folder = null). -/
def exPages : List Page :=
  [{ id := 1, slug := "p1", markdown := "m", folder_id := some 1, user_id := 1,
     deleted_at := none, created_at := 0, updated_at := 0 },
   { id := 2, slug := "p2", markdown := "m", folder_id := some 2, user_id := 1,
     deleted_at := none, created_at := 0, updated_at := 0 },
   { id := 3, slug := "p3", markdown := "m", folder_id := none, user_id := 1,
     deleted_at := none, created_at := 0, updated_at := 0 }]

/-- An active page whose `folder_id` references a folder that does not
exist (id 99). -/
def orphanPage : Page :=
  { id := 1, slug := "orphan", markdown := "m", folder_id := some 99,
    user_id := 1, deleted_at := none, created_at := 0, updated_at := 0 }

/-- A store holding one soft-deleted page with slug `gone`. -/
def dbRendered : DB :=
  { pages := [{ id := 1, slug := "gone", markdown := "# bye", folder_id := none,
                user_id := 1, deleted_at := some 3, created_at := 0,
                updated_at := 0 }],
    folders := [] }

/-- A store holding one active page owned by user 2. -/
def dbSecret : DB :=
  { pages := [{ id := 1, slug := "secret", markdown := "# b", folder_id := none,
                user_id := 2, deleted_at := none, created_at := 0,
                updated_at := 0 }],
    folders := [] }

/-- A store holding one soft-deleted page owned by user 1. -/
def dbTrashed : DB :=
  { pages := [{ id := 1, slug := "trashed", markdown := "# t", folder_id := none,
                user_id := 1, deleted_at := some 2, created_at := 0,
                updated_at := 0 }],
    folders := [] }

/-- The 4-level folder chain A→B→C→D of the spec's cycle test. -/
def dbChain : DB :=
  { pages := [],
    folders := [{ id := 1, name := "A", parent_id := none, user_id := 1,
                  created_at := 0, updated_at := 0 },
                { id := 2, name := "B", parent_id := some 1, user_id := 1,
                  created_at := 0, updated_at := 0 },
                { id := 3, name := "C", parent_id := some 2, user_id := 1,
                  created_at := 0, updated_at := 0 },
                { id := 4, name := "D", parent_id := some 3, user_id := 1,
                  created_at := 0, updated_at := 0 }] }

/-- A two-folder chain A(1, root), B(2, parent A). -/
def dbTwo : DB :=
  { pages := [],
    folders := [{ id := 1, name := "A", parent_id := none, user_id := 1,
                  created_at := 0, updated_at := 0 },
                { id := 2, name := "B", parent_id := some 1, user_id := 1,
                  created_at := 0, updated_at := 0 }] }

/-- Folders A(1, root), B(2, parent A), C(3, root), used for a legal move. -/
def dbThree : DB :=
  { pages := [],
    folders := [{ id := 1, name := "A", parent_id := none, user_id := 1,
                  created_at := 0, updated_at := 0 },
                { id := 2, name := "B", parent_id := some 1, user_id := 1,
                  created_at := 0, updated_at := 0 },
                { id := 3, name := "C", parent_id := none, user_id := 1,
                  created_at := 0, updated_at := 0 }] }

/-- The spec's folder-delete example: folder F(10) under Parent(7) with
subfolder Sub(11) and two pages in F. -/
def dbFolderDel : DB :=
  { pages := [{ id := 1, slug := "pg1", markdown := "m", folder_id := some 10,
                user_id := 1, deleted_at := none, created_at := 0,
                updated_at := 0 },
              { id := 2, slug := "pg2", markdown := "m", folder_id := some 10,
                user_id := 1, deleted_at := none, created_at := 0,
                updated_at := 0 }],
    folders := [{ id := 7, name := "Parent", parent_id := none, user_id := 1,
                  created_at := 0, updated_at := 0 },
                { id := 10, name := "F", parent_id := some 7, user_id := 1,
                  created_at := 0, updated_at := 0 },
                { id := 11, name := "Sub", parent_id := some 10, user_id := 1,
                  created_at := 0, updated_at := 0 }] }

/-- A parent chain: consecutive elements step from a folder to its
parent (`parentOf` of each element is the next element). -/
def chainStep (fs : List Folder) : List Nat → Prop
  | [] => True
  | [_] => True
  | a :: b :: rest => parentOf fs a = some b ∧ chainStep fs (b :: rest)

/-- Some folder is its own proper ancestor: a parent chain leads from a
folder id back to itself. -/
def HasCycle (fs : List Folder) : Prop :=
  ∃ i l, chainStep fs (i :: l ++ [i])

/-- The spec's invariant: no folder is its own ancestor. -/
def Acyclic (fs : List Folder) : Prop :=
  ¬ HasCycle fs

/-! ### Helper lemmas -/

theorem chainStep_tail {fs : List Folder} {a : Nat} {c : List Nat}
    (h : chainStep fs (a :: c)) : chainStep fs c := by
  cases c with
  | nil => trivial
  | cons b rest => exact h.2

theorem chainStep_suffix {fs : List Folder} :
    ∀ (c1 c2 : List Nat), chainStep fs (c1 ++ c2) → chainStep fs c2 := by
  intro c1
  induction c1 with
  | nil => exact fun c2 h => h
  | cons a t ih => exact fun c2 h => ih c2 (chainStep_tail h)

theorem chainStep_front {fs : List Folder} :
    ∀ (c1 : List Nat) (x : Nat) (c2 : List Nat),
      chainStep fs (c1 ++ x :: c2) → chainStep fs (c1 ++ [x]) := by
  intro c1
  induction c1 with
  | nil => intro x c2 _; trivial
  | cons a t ih =>
    intro x c2 h
    cases t with
    | nil => exact ⟨h.1, trivial⟩
    | cons b t' => exact ⟨h.1, ih x c2 h.2⟩

theorem chainStep_glue {fs : List Folder} :
    ∀ (c1 : List Nat) (x : Nat) (c2 : List Nat),
      chainStep fs (c1 ++ [x]) → chainStep fs (x :: c2) →
      chainStep fs (c1 ++ x :: c2) := by
  intro c1
  induction c1 with
  | nil => exact fun x c2 _ h2 => h2
  | cons a t ih =>
    intro x c2 h1 h2
    cases t with
    | nil => exact ⟨h1.1, h2⟩
    | cons b t' => exact ⟨h1.1, ih x c2 h1.2 h2⟩

theorem parentOf_mem {fs : List Folder} {a b : Nat}
    (h : parentOf fs a = some b) : ∃ f ∈ fs, f.id = a := by
  unfold parentOf at h
  cases hf : fs.find? (fun f => f.id == a) with
  | none => rw [hf] at h; cases h
  | some f =>
    refine ⟨f, List.mem_of_find?_eq_some hf, ?_⟩
    simpa using List.find?_some hf

theorem chain_mem_ids {fs : List Folder} :
    ∀ (c : List Nat) (x : Nat), chainStep fs (c ++ [x]) →
      ∀ a ∈ c, ∃ f ∈ fs, f.id = a := by
  intro c
  induction c with
  | nil => intro x _ a ha; cases ha
  | cons b t ih =>
    intro x h a ha
    rcases List.mem_cons.mp ha with rfl | hat
    · cases t with
      | nil => exact parentOf_mem h.1
      | cons d t' => exact parentOf_mem h.1
    · exact ih x (chainStep_tail h) a hat

theorem chain_nodup_or_cycle {fs : List Folder} :
    ∀ (c : List Nat), chainStep fs c → ¬ c.Nodup → HasCycle fs := by
  intro c
  induction c with
  | nil => intro _ hn; exact absurd List.nodup_nil hn
  | cons a t ih =>
    intro h hn
    by_cases hat : a ∈ t
    · obtain ⟨s, w, rfl⟩ := List.append_of_mem hat
      refine ⟨a, s, ?_⟩
      have := chainStep_front (a :: s) a w (by simpa using h)
      simpa using this
    · refine ih (chainStep_tail h) ?_
      intro hnd
      exact hn (List.nodup_cons.mpr ⟨hat, hnd⟩)

theorem validSlug_ne_empty {s : String} (h : validSlug s = true) : s ≠ "" := by
  intro he
  subst he
  exact absurd h (by decide)

theorem filter_user_slug_eq_single {l : List Page} {u : Nat} {s : String}
    (huniq : PagesUnique l) {p : Page} (hp : p ∈ l) (hu : p.user_id = u)
    (hs : p.slug = s) :
    l.filter (fun q => q.slug == s && q.user_id == u) = [p] := by
  induction l with
  | nil => cases hp
  | cons a t ih =>
    simp only [PagesUnique, List.map_cons, List.nodup_cons] at huniq
    rcases List.mem_cons.mp hp with rfl | hpt
    · have hnone : ∀ q ∈ t, ¬(q.slug == s && q.user_id == u) = true := by
        intro q hq hqp
        simp only [Bool.and_eq_true, beq_iff_eq] at hqp
        exact huniq.1 (List.mem_map.mpr ⟨q, hq, by
          simp [hqp.1, hqp.2, hu.symm, hs.symm]⟩)
      have ht : t.filter (fun q => q.slug == s && q.user_id == u) = [] :=
        List.filter_eq_nil_iff.mpr hnone
      rw [List.filter_cons_of_pos, ht]
      simp [hu, hs]
    · have hna : ¬(a.slug == s && a.user_id == u) = true := by
        intro hap
        simp only [Bool.and_eq_true, beq_iff_eq] at hap
        exact huniq.1 (List.mem_map.mpr ⟨p, hpt, by
          simp [hap.1, hap.2, hu, hs]⟩)
      rw [List.filter_cons_of_neg (by simpa using hna)]
      exact ih huniq.2 hpt

theorem filter_user_slug_eq_nil {l : List Page} {u : Nat} {s : String}
    (h : ¬ ∃ p ∈ l, p.user_id = u ∧ p.slug = s) :
    l.filter (fun q => q.slug == s && q.user_id == u) = [] := by
  refine List.filter_eq_nil_iff.mpr ?_
  intro q hq hqp
  simp only [Bool.and_eq_true, beq_iff_eq] at hqp
  exact h ⟨q, hq, hqp.2, hqp.1⟩

theorem filter_user_slug_length_le {l : List Page} {u : Nat} {s : String}
    (huniq : PagesUnique l) :
    (l.filter (fun q => q.slug == s && q.user_id == u)).length ≤ 1 := by
  by_cases h : ∃ p ∈ l, p.user_id = u ∧ p.slug = s
  · obtain ⟨p, hp, hu, hs⟩ := h
    rw [filter_user_slug_eq_single huniq hp hu hs]
    simp
  · rw [filter_user_slug_eq_nil h]
    simp

theorem publish_reduces (db : DB) (u now : Nat) (m s : String)
    (folderId : Option Nat) (hm : m ≠ "") (hs : validSlug s = true)
    (hfol : truthyNum folderId = false ∨
      (db.folders.filter (fun f =>
        f.id == folderId.getD 0 && f.user_id == u)).length = 1) :
    publish db (some u) .POST now (some m) (some s) folderId
      = publishWrite db u now m s (effFolderId folderId) := by
  have hm' : (m != "") = true := by simpa using hm
  have hs' : (s != "") = true := by simpa using validSlug_ne_empty hs
  unfold publish
  simp only [truthyStr, hm', hs', hs, Option.getD_some]
  rcases hfol with h | h
  · simp [h]
  · obtain ⟨f, hf⟩ := List.length_eq_one.mp h
    by_cases ht : truthyNum folderId = true
    · simp [ht, hf, single]
    · simp [Bool.of_not_eq_true ht]

/-! ### Claim theorems -/

/-- C1. The claim states that a page with non-null `deleted_at` is excluded
from public rendering and that GET /[slug] resolves to not-found for it.
The code contradicts this: the fetch in [slug].tsx filters by slug only,
so the soft-deleted page `gone` is returned and rendered, not `notFound`. -/
theorem C1_soft_deleted_page_publicly_rendered :
    (∃ p ∈ dbRendered.pages, p.slug = "gone" ∧ p.deleted_at ≠ none) ∧
    slugPageGetServerSideProps dbRendered (some "gone")
      = .rendered "# bye" "gone" := by
  decide

/-- C3. The claim states that a request by user A naming user B's page is
denied and leaves B's rows unchanged. The code contradicts this:
delete-page.ts fetches and updates the page without any `user_id` filter,
so authenticated user 1's DELETE with `pageId=1` soft-deletes user 2's
page and reports success. -/
theorem C3_cross_user_soft_delete_allowed :
    (∀ p ∈ dbSecret.pages, p.user_id = 2) ∧
    (deletePage dbSecret (some 1) .DELETE (some 1) none 5).1
      = { status := 200, success := true } ∧
    (deletePage dbSecret (some 1) .DELETE (some 1) none 5).2.pages
      = [{ id := 1, slug := "secret", markdown := "# b", folder_id := none,
           user_id := 2, deleted_at := some 5, created_at := 0,
           updated_at := 5 }] := by
  decide

/-- C5. The claim states that restore clears `deleted_at` and moves the
page from `listDeletedPages` back to `listActivePages`. The code has no
restore path: dashboard.tsx `restorePage` POSTs `{pageId, restore: true}`
to /api/delete-page without an Authorization header, and the handler
answers 401 for the unauthenticated request (and 405 for any non-DELETE
method even when authenticated); the page stays soft-deleted either way. -/
theorem C5_restore_request_rejected :
    (listDeletedPages dbTrashed).length = 1 ∧
    listActivePages dbTrashed = [] ∧
    deletePage dbTrashed none .POST (some 1) none 9
      = ({ status := 401, error := some "Unauthorized" }, dbTrashed) ∧
    deletePage dbTrashed (some 1) .POST (some 1) none 9
      = ({ status := 405, error := some "Method not allowed" }, dbTrashed) := by
  decide

/-- C2. Publish has upsert semantics: with a valid body and an existing
`(owner, slug)` row, that row is updated in place (markdown, folder_id,
updated_at, other fields untouched) and the response is action 'updated'
with the row count unchanged; with no such row, exactly one new row with
null `deleted_at` is appended and the response is action 'created'; and
`(owner, slug)` uniqueness is preserved in every branch. -/
theorem C2_publish_upsert (db : DB) (u now : Nat) (m s : String)
    (folderId : Option Nat) (hm : m ≠ "") (hs : validSlug s = true)
    (hfol : truthyNum folderId = false ∨
      (db.folders.filter (fun f =>
        f.id == folderId.getD 0 && f.user_id == u)).length = 1)
    (huniq : PagesUnique db.pages) :
    (∀ p ∈ db.pages, p.user_id = u → p.slug = s →
      (publish db (some u) .POST now (some m) (some s) folderId).1
        = { status := 200, success := true, action := some "updated" } ∧
      (publish db (some u) .POST now (some m) (some s) folderId).2.pages.length
        = db.pages.length ∧
      { p with markdown := m, folder_id := effFolderId folderId,
               updated_at := now }
        ∈ (publish db (some u) .POST now (some m) (some s) folderId).2.pages ∧
      (publish db (some u) .POST now (some m) (some s) folderId).2.folders
        = db.folders)
    ∧ ((¬ ∃ p ∈ db.pages, p.user_id = u ∧ p.slug = s) →
      (publish db (some u) .POST now (some m) (some s) folderId).1
        = { status := 201, success := true, action := some "created" } ∧
      (publish db (some u) .POST now (some m) (some s) folderId).2.pages
        = db.pages ++
          [{ id := freshPageId db, slug := s, markdown := m,
             folder_id := effFolderId folderId, user_id := u,
             deleted_at := none, created_at := now, updated_at := now }] ∧
      (publish db (some u) .POST now (some m) (some s) folderId).2.folders
        = db.folders)
    ∧ PagesUnique
        (publish db (some u) .POST now (some m) (some s) folderId).2.pages := by
  rw [publish_reduces db u now m s folderId hm hs hfol]
  refine ⟨?_, ?_, ?_⟩
  · intro p hp hpu hps
    unfold publishWrite
    rw [filter_user_slug_eq_single huniq hp hpu hps]
    simp only [single]
    refine ⟨by trivial, by simp, ?_, by trivial⟩
    exact List.mem_map.mpr ⟨p, hp, by simp [hps]⟩
  · intro hnex
    unfold publishWrite
    rw [filter_user_slug_eq_nil hnex]
    simp only [single]
    exact ⟨by trivial, by trivial, by trivial⟩
  · by_cases hex : ∃ p ∈ db.pages, p.user_id = u ∧ p.slug = s
    · obtain ⟨p, hp, hpu, hps⟩ := hex
      unfold publishWrite
      rw [filter_user_slug_eq_single huniq hp hpu hps]
      simp only [single]
      unfold PagesUnique at huniq ⊢
      rw [List.map_map]
      have hpair : ((fun q : Page => (q.user_id, q.slug)) ∘
          (fun q : Page => if q.slug == s then
            { q with markdown := m, folder_id := effFolderId folderId,
                     updated_at := now } else q))
          = fun q : Page => (q.user_id, q.slug) := by
        funext q
        by_cases h : q.slug = s <;> simp [h]
      rw [hpair]
      exact huniq
    · unfold publishWrite
      rw [filter_user_slug_eq_nil hex]
      simp only [single]
      unfold PagesUnique at huniq ⊢
      rw [List.map_append]
      refine List.Nodup.append huniq (by simp) ?_
      intro x hx hx2
      simp only [List.map_cons, List.map_nil, List.mem_singleton] at hx2
      obtain ⟨q, hq, hqx⟩ := List.mem_map.mp hx
      rw [hx2] at hqx
      simp only [Prod.mk.injEq] at hqx
      exact hex ⟨q, hq, hqx.1, hqx.2⟩

/-- Closed witness for C2: publishing the slug `about` into an empty store
creates exactly one row with null `deleted_at`, and uniqueness holds. -/
theorem C2_publish_upsert_witness :
    (publish ⟨[], []⟩ (some 1) .POST 7 (some "# hi") (some "about") none).1
      = { status := 201, success := true, action := some "created" } ∧
    (publish ⟨[], []⟩ (some 1) .POST 7 (some "# hi") (some "about") none).2.pages
      = [{ id := freshPageId ⟨[], []⟩, slug := "about", markdown := "# hi",
           folder_id := effFolderId none, user_id := 1, deleted_at := none,
           created_at := 7, updated_at := 7 }] ∧
    (publish ⟨[], []⟩ (some 1) .POST 7 (some "# hi") (some "about") none).2.folders
      = [] := by
  have h := (C2_publish_upsert ⟨[], []⟩ 1 7 "# hi" "about" none
    (by decide) (by decide) (Or.inl (by decide)) (by simp [PagesUnique])).2.1
    (by simp)
  exact ⟨h.1, h.2.1, h.2.2⟩

/-- C9. Slug validation: any authenticated POST whose slug fails
`^[a-zA-Z0-9_-]+$` is answered 400 with the store unchanged; the
storage-level `valid_page_slug` CHECK accepts exactly the same slugs as
the API regex; and with a valid slug (and valid body and folder) publish
succeeds with 200 or 201. -/
theorem C9_slug_validation :
    (∀ (db : DB) (u now : Nat) (m s : String) (folderId : Option Nat),
      validSlug s = false →
      (publish db (some u) .POST now (some m) (some s) folderId).1.status = 400 ∧
      (publish db (some u) .POST now (some m) (some s) folderId).2 = db)
    ∧ (∀ s : String, valid_page_slug s = validSlug s)
    ∧ (∀ (db : DB) (u now : Nat) (m s : String) (folderId : Option Nat),
      m ≠ "" → validSlug s = true →
      (truthyNum folderId = false ∨
        (db.folders.filter (fun f =>
          f.id == folderId.getD 0 && f.user_id == u)).length = 1) →
      PagesUnique db.pages →
      (publish db (some u) .POST now (some m) (some s) folderId).1.status = 200 ∨
      (publish db (some u) .POST now (some m) (some s) folderId).1.status = 201) := by
  refine ⟨?_, ?_, ?_⟩
  · intro db u now m s folderId hval
    unfold publish
    cases hm : (m != "") with
    | false => simp [truthyStr, hm]
    | true =>
      cases hsz : (s != "") with
      | false => simp [truthyStr, hm, hsz]
      | true => simp [truthyStr, hm, hsz, hval]
  · intro s
    unfold valid_page_slug validSlug
    cases h : slugPatternMatch s with
    | false => simp [h]
    | true =>
      have h2 : 0 < s.toList.length := by
        cases hl : s.toList with
        | nil =>
          unfold slugPatternMatch at h
          rw [hl] at h
          simp at h
        | cons a t => simp
      simpa using h2
  · intro db u now m s folderId hm hs hfol huniq
    rw [publish_reduces db u now m s folderId hm hs hfol]
    unfold publishWrite
    have hle := filter_user_slug_length_le (u := u) (s := s) huniq
    cases hfe : db.pages.filter (fun q => q.slug == s && q.user_id == u) with
    | nil => right; simp [hfe, single]
    | cons x xs =>
      cases xs with
      | nil => left; simp [hfe, single]
      | cons y ys => rw [hfe] at hle; simp at hle

/-- Closed witness for C9: `bad slug!` is rejected by the API with 400 and
no write, is rejected by the CHECK constraint too, and the valid slug
`about` publishes successfully. -/
theorem C9_slug_validation_witness :
    ((publish ⟨[], []⟩ (some 1) .POST 7 (some "# hi") (some "bad slug!") none).1.status
        = 400 ∧
      (publish ⟨[], []⟩ (some 1) .POST 7 (some "# hi") (some "bad slug!") none).2
        = ⟨[], []⟩) ∧
    valid_page_slug "bad slug!" = validSlug "bad slug!" ∧
    ((publish ⟨[], []⟩ (some 1) .POST 7 (some "# hi") (some "about") none).1.status
        = 200 ∨
      (publish ⟨[], []⟩ (some 1) .POST 7 (some "# hi") (some "about") none).1.status
        = 201) :=
  ⟨C9_slug_validation.1 ⟨[], []⟩ 1 7 "# hi" "bad slug!" none (by decide),
   C9_slug_validation.2.1 "bad slug!",
   C9_slug_validation.2.2 ⟨[], []⟩ 1 7 "# hi" "about" none (by decide) (by decide)
     (Or.inl (by decide)) (by simp [PagesUnique])⟩

/-- C7. The sidebar builder produces, for the spec's example (folders
Projects(root) and Web(parent = Projects), pages p1(Projects), p2(Web),
p3(null)), exactly the order [Projects, p1, Web, p2, p3] with indent
levels [0, 1, 1, 2, 0]; and for every input the result is the
deleted-independent traversal with a Trash entry appended last exactly
when deleted pages exist. -/
theorem C7_sidebar_order :
    ((sidebarItems exFolders exPages []).map (fun i => (i.name, i.level))
      = [("Projects", 0), ("p1", 1), ("Web", 1), ("p2", 2), ("p3", 0)])
    ∧ (∀ (fs : List Folder) (ps ds : List Page),
      sidebarItems fs ps ds
        = sidebarItems fs ps [] ++
          (if 0 < ds.length then [trashItem ds.length] else [])) := by
  refine ⟨by decide, ?_⟩
  intro fs ps ds
  unfold sidebarItems
  by_cases h : 0 < ds.length <;> simp [h]

/-- C8 counterexample. The claim states that every active page whose
`folder_id` references no visited folder is appended to the sidebar at
level 0, including orphans, and that no active page is omitted. On the
store with no folders and the single active page `orphan` whose
`folder_id` is 99, the sidebar is empty: the orphan is omitted, because
the builder only appends pages with null `folder_id`. -/
theorem C8_orphan_omitted_cex :
    orphanPage.deleted_at = none ∧
    orphanPage.folder_id = some 99 ∧
    sidebarItems [] [orphanPage] [] = [] := by
  decide

theorem filter_folder_id_user_eq_single {l : List Folder} {fid u : Nat}
    (hids : (l.map Folder.id).Nodup) {F : Folder} (hF : F ∈ l)
    (hFid : F.id = fid) (hFu : F.user_id = u) :
    l.filter (fun f => f.id == fid && f.user_id == u) = [F] := by
  induction l with
  | nil => cases hF
  | cons a t ih =>
    simp only [List.map_cons, List.nodup_cons] at hids
    rcases List.mem_cons.mp hF with rfl | hFt
    · have ht : t.filter (fun f => f.id == fid && f.user_id == u) = [] := by
        refine List.filter_eq_nil_iff.mpr ?_
        intro q hq hqp
        simp only [Bool.and_eq_true, beq_iff_eq] at hqp
        exact hids.1 (List.mem_map.mpr ⟨q, hq, by rw [hqp.1, hFid]⟩)
      rw [List.filter_cons_of_pos, ht]
      simp [hFid, hFu]
    · have hna : ¬(a.id == fid && a.user_id == u) = true := by
        intro hap
        simp only [Bool.and_eq_true, beq_iff_eq] at hap
        exact hids.1 (List.mem_map.mpr ⟨F, hFt, by rw [hFid, hap.1]⟩)
      rw [List.filter_cons_of_neg (by simpa using hna)]
      exact ih hids.2 hFt

theorem eq_of_mem_id_nodup {l : List Folder}
    (hids : (l.map Folder.id).Nodup) {g F : Folder} (hg : g ∈ l) (hF : F ∈ l)
    (h : g.id = F.id) : g = F := by
  induction l with
  | nil => cases hg
  | cons a t ih =>
    simp only [List.map_cons, List.nodup_cons] at hids
    rcases List.mem_cons.mp hg with rfl | hgt
    · rcases List.mem_cons.mp hF with rfl | hFt
      · rfl
      · exact absurd (List.mem_map.mpr ⟨F, hFt, h.symm⟩) hids.1
    · rcases List.mem_cons.mp hF with rfl | hFt
      · exact absurd (List.mem_map.mpr ⟨g, hgt, h⟩) hids.1
      · exact ih hids.2 hgt hFt

/-- C6. Deleting folder F performs exactly: every page whose `folder_id`
was F gets null `folder_id`, every folder whose `parent_id` was F gets
F's former `parent_id`, and F's row is removed — and nothing else, the
new state being given in full. The scoping hypotheses say the state is
ownership-consistent: every page and folder referencing F belongs to F's
owner, as the spec's ownership model requires. -/
theorem C6_folder_delete_flattens (db : DB) (u fid : Nat) {F : Folder}
    (hids : (db.folders.map Folder.id).Nodup)
    (hF : F ∈ db.folders) (hFid : F.id = fid) (hFu : F.user_id = u)
    (hpg : ∀ p ∈ db.pages, p.folder_id = some fid → p.user_id = u)
    (hfl : ∀ g ∈ db.folders, g.parent_id = some fid → g.user_id = u) :
    foldersDelete db (some u) (some fid)
      = ({ status := 200, success := true },
         { pages := db.pages.map (fun p =>
             if p.folder_id == some fid then { p with folder_id := none }
             else p),
           folders := (db.folders.map (fun g =>
             if g.parent_id == some fid then { g with parent_id := F.parent_id }
             else g)).filter (fun g => !(g.id == fid)) }) := by
  have hsingle := filter_folder_id_user_eq_single hids hF hFid hFu
  simp only [foldersDelete, hsingle, single]
  have hpages : db.pages.map (fun p =>
      if p.folder_id == some fid && p.user_id == u then { p with folder_id := none }
      else p)
      = db.pages.map (fun p =>
        if p.folder_id == some fid then { p with folder_id := none } else p) := by
    refine List.map_congr_left ?_
    intro p hp
    by_cases hc : p.folder_id = some fid
    · simp [hc, hpg p hp hc]
    · simp [hc]
  have hfolders : (db.folders.map (fun g =>
      if g.parent_id == some fid && g.user_id == u then
        { g with parent_id := F.parent_id } else g)).filter
        (fun g => !(g.id == fid && g.user_id == u))
      = (db.folders.map (fun g =>
        if g.parent_id == some fid then { g with parent_id := F.parent_id }
        else g)).filter (fun g => !(g.id == fid)) := by
    have hmap : db.folders.map (fun g =>
        if g.parent_id == some fid && g.user_id == u then
          { g with parent_id := F.parent_id } else g)
        = db.folders.map (fun g =>
          if g.parent_id == some fid then { g with parent_id := F.parent_id }
          else g) := by
      refine List.map_congr_left ?_
      intro g hg
      by_cases hc : g.parent_id = some fid
      · simp [hc, hfl g hg hc]
      · simp [hc]
    rw [hmap]
    refine List.filter_congr ?_
    intro x hx
    obtain ⟨g, hg, hgx⟩ := List.mem_map.mp hx
    by_cases hc : x.id = fid
    · have hxid : g.id = x.id := by
        rw [← hgx]
        by_cases hp : g.parent_id = some fid <;> simp [hp]
      have hxu : g.user_id = x.user_id := by
        rw [← hgx]
        by_cases hp : g.parent_id = some fid <;> simp [hp]
      have hgF : g = F := eq_of_mem_id_nodup hids hg hF (by rw [hxid, hc, ← hFid])
      have : x.user_id = u := by rw [← hxu, hgF, hFu]
      simp [hc, this]
    · simp [hc]
  rw [hpages, hfolders]

/-- Closed witness for C6, the spec's example: deleting folder F(10),
which holds pages pg1 and pg2 and subfolder Sub(11) and sits under
Parent(7), leaves pg1 and pg2 uncategorized, reparents Sub to Parent, and
removes F. -/
theorem C6_folder_delete_flattens_witness :
    foldersDelete dbFolderDel (some 1) (some 10)
      = ({ status := 200, success := true },
         { pages := [{ id := 1, slug := "pg1", markdown := "m",
                       folder_id := none, user_id := 1, deleted_at := none,
                       created_at := 0, updated_at := 0 },
                     { id := 2, slug := "pg2", markdown := "m",
                       folder_id := none, user_id := 1, deleted_at := none,
                       created_at := 0, updated_at := 0 }],
           folders := [{ id := 7, name := "Parent", parent_id := none,
                         user_id := 1, created_at := 0, updated_at := 0 },
                       { id := 11, name := "Sub", parent_id := some 7,
                         user_id := 1, created_at := 0, updated_at := 0 }] }) := by
  have h := C6_folder_delete_flattens dbFolderDel 1 10
    (F := { id := 10, name := "F", parent_id := some 7, user_id := 1,
            created_at := 0, updated_at := 0 })
    (by decide) (by decide) (by decide) (by decide) (by decide) (by decide)
  rw [h]
  decide

theorem foldl_preserve {α β : Type} {P : β → Prop} {f : β → α → β}
    {l : List α} {b : β} (hb : P b)
    (hf : ∀ b' a, a ∈ l → P b' → P (f b' a)) : P (l.foldl f b) := by
  induction l generalizing b with
  | nil => exact hb
  | cons a t ih =>
    exact ih (hf b a (List.mem_cons_self a t) hb)
      (fun b' a' ha' => hf b' a' (List.mem_cons_of_mem a ha'))

theorem eq_of_mem_page_id_nodup {l : List Page}
    (hids : (l.map Page.id).Nodup) {q p : Page} (hq : q ∈ l) (hp : p ∈ l)
    (h : q.id = p.id) : q = p := by
  induction l with
  | nil => cases hq
  | cons a t ih =>
    simp only [List.map_cons, List.nodup_cons] at hids
    rcases List.mem_cons.mp hq with rfl | hqt
    · rcases List.mem_cons.mp hp with rfl | hpt
      · rfl
      · exact absurd (List.mem_map.mpr ⟨p, hpt, h.symm⟩) hids.1
    · rcases List.mem_cons.mp hp with rfl | hpt
      · exact absurd (List.mem_map.mpr ⟨q, hqt, h⟩) hids.1
      · exact ih hids.2 hqt hpt

/-- Every id recorded as processed by the folder traversal comes from a
page that sits in some folder, and every emitted item is either inherited
from the accumulator, a folder item, or a page item for a page whose
`folder_id` points at an existing folder. -/
theorem processFolder_shape (fs : List Folder) (ps : List Page) :
    ∀ (fuel fid lvl : Nat) (acc : List SidebarItem × List Nat),
      (∀ x ∈ (processFolder fs ps fuel fid lvl acc).2,
        x ∈ acc.2 ∨ ∃ p ∈ ps, p.id = x ∧ ∃ g, p.folder_id = some g)
      ∧ (∀ it ∈ (processFolder fs ps fuel fid lvl acc).1,
        it ∈ acc.1 ∨ (∃ g, it.id = ItemId.folder g) ∨
          ∃ p ∈ ps, it.id = ItemId.page p.id ∧
            ∃ f ∈ fs, p.folder_id = some f.id) := by
  intro fuel
  induction fuel with
  | zero =>
    intro fid lvl acc
    constructor
    · intro x hx
      exact Or.inl hx
    · intro it hit
      exact Or.inl hit
  | succ n ih =>
    intro fid lvl acc
    cases hfind : fs.find? (fun f => f.id == fid) with
    | none =>
      simp only [processFolder, hfind]
      constructor
      · intro x hx
        exact Or.inl hx
      · intro it hit
        exact Or.inl hit
    | some folder =>
      have hfmem : folder ∈ fs := List.mem_of_find?_eq_some hfind
      have hfidq : folder.id = fid := by
        have := List.find?_some hfind
        simpa using this
      simp only [processFolder, hfind]
      refine foldl_preserve
        (P := fun a : List SidebarItem × List Nat =>
          (∀ x ∈ a.2,
            x ∈ acc.2 ∨ ∃ p ∈ ps, p.id = x ∧ ∃ g, p.folder_id = some g)
          ∧ (∀ it ∈ a.1,
            it ∈ acc.1 ∨ (∃ g, it.id = ItemId.folder g) ∨
              ∃ p ∈ ps, it.id = ItemId.page p.id ∧
                ∃ f ∈ fs, p.folder_id = some f.id)) ?_ ?_
      · refine foldl_preserve
          (P := fun a : List SidebarItem × List Nat =>
            (∀ x ∈ a.2,
              x ∈ acc.2 ∨ ∃ p ∈ ps, p.id = x ∧ ∃ g, p.folder_id = some g)
            ∧ (∀ it ∈ a.1,
              it ∈ acc.1 ∨ (∃ g, it.id = ItemId.folder g) ∨
                ∃ p ∈ ps, it.id = ItemId.page p.id ∧
                  ∃ f ∈ fs, p.folder_id = some f.id)) ?_ ?_
        · constructor
          · intro x hx
            exact Or.inl hx
          · intro it hit
            rcases List.mem_append.mp hit with h | h
            · exact Or.inl h
            · refine Or.inr (Or.inl ⟨fid, ?_⟩)
              simp only [List.mem_singleton] at h
              rw [h]
        · intro a page hpage hPa
          have hpm := List.mem_filter.mp hpage
          constructor
          · intro x hx
            rcases List.mem_append.mp hx with h | h
            · exact hPa.1 x h
            · simp only [List.mem_singleton] at h
              refine Or.inr ⟨page, hpm.1, h.symm, fid, ?_⟩
              simpa using hpm.2
          · intro it hit
            rcases List.mem_append.mp hit with h | h
            · exact hPa.2 it h
            · simp only [List.mem_singleton] at h
              refine Or.inr (Or.inr ⟨page, hpm.1, by rw [h], folder, hfmem, ?_⟩)
              rw [hfidq]
              simpa using hpm.2
      · intro a child _hchild hPa
        constructor
        · intro x hx
          rcases (ih child.id (lvl + 1) a).1 x hx with h | h
          · exact hPa.1 x h
          · exact Or.inr h
        · intro it hit
          rcases (ih child.id (lvl + 1) a).2 it hit with h | h
          · exact hPa.2 it h
          · exact Or.inr h

/-- C8, amended. After the folder traversal the sidebar builder appends,
at indent level 0, exactly the active pages whose `folder_id` is null and
that were not already processed; a page whose `folder_id` references no
existing folder is omitted from the sidebar entirely. -/
theorem C8_sidebar_uncategorized_amended (fs : List Folder) (ps ds : List Page)
    (hpid : (ps.map Page.id).Nodup) :
    (∀ p ∈ ps, p.folder_id = none → uncatItem p ∈ sidebarItems fs ps ds)
    ∧ (∀ p ∈ ps, ∀ gid, p.folder_id = some gid → gid ∉ fs.map Folder.id →
      ∀ it ∈ sidebarItems fs ps ds, it.id ≠ ItemId.page p.id) := by
  have haccGood : ∀ x ∈ (sidebarAcc fs ps).2,
      ∃ p ∈ ps, p.id = x ∧ ∃ g, p.folder_id = some g := by
    unfold sidebarAcc
    refine foldl_preserve
      (P := fun a : List SidebarItem × List Nat =>
        ∀ x ∈ a.2, ∃ p ∈ ps, p.id = x ∧ ∃ g, p.folder_id = some g) ?_ ?_
    · intro x hx
      exact absurd hx (by simp)
    · intro a folder _hf hPa x hx
      rcases (processFolder_shape fs ps (fs.length + 1) folder.id 0 a).1 x hx with h | h
      · exact hPa x h
      · exact h
  have haccItems : ∀ it ∈ (sidebarAcc fs ps).1,
      (∃ g, it.id = ItemId.folder g) ∨
        ∃ p ∈ ps, it.id = ItemId.page p.id ∧ ∃ f ∈ fs, p.folder_id = some f.id := by
    unfold sidebarAcc
    refine foldl_preserve
      (P := fun a : List SidebarItem × List Nat =>
        ∀ it ∈ a.1, (∃ g, it.id = ItemId.folder g) ∨
          ∃ p ∈ ps, it.id = ItemId.page p.id ∧
            ∃ f ∈ fs, p.folder_id = some f.id) ?_ ?_
    · intro it hit
      exact absurd hit (by simp)
    · intro a folder _hf hPa it hit
      rcases (processFolder_shape fs ps (fs.length + 1) folder.id 0 a).2 it hit with h | h
      · exact hPa it h
      · exact h
  constructor
  · intro p hp hpnone
    have hnp : p.id ∉ (sidebarAcc fs ps).2 := by
      intro hmem
      obtain ⟨q, hq, hqid, g, hqg⟩ := haccGood p.id hmem
      have hqp : q = p := eq_of_mem_page_id_nodup hpid hq hp hqid
      rw [hqp, hpnone] at hqg
      cases hqg
    have hcontains : (sidebarAcc fs ps).2.contains p.id = false := by
      simpa using hnp
    have hpfilter : p ∈ ps.filter (fun q =>
        q.folder_id == none && !((sidebarAcc fs ps).2.contains q.id)) := by
      refine List.mem_filter.mpr ⟨hp, ?_⟩
      simp [hpnone, hnp]
    have hin : uncatItem p ∈ (ps.filter (fun q =>
        q.folder_id == none && !((sidebarAcc fs ps).2.contains q.id))).map uncatItem :=
      List.mem_map.mpr ⟨p, hpfilter, rfl⟩
    simp only [sidebarItems]
    by_cases hds : ds.length > 0
    · rw [if_pos hds]
      exact List.mem_append.mpr (Or.inl (List.mem_append.mpr (Or.inr hin)))
    · rw [if_neg hds]
      exact List.mem_append.mpr (Or.inr hin)
  · intro p hp gid hpgid hgid it hit heq
    have hmain : it ∈ (sidebarAcc fs ps).1 ++
        (ps.filter (fun q =>
          q.folder_id == none &&
            !((sidebarAcc fs ps).2.contains q.id))).map uncatItem → False := by
      intro hm
      rcases List.mem_append.mp hm with h1 | h1
      · rcases haccItems it h1 with ⟨g, hg⟩ | ⟨q, hq, hqid, f, hf, hqf⟩
        · rw [heq] at hg
          cases hg
        · rw [heq] at hqid
          have hqp : q = p := by
            refine eq_of_mem_page_id_nodup hpid hq hp ?_
            injection hqid with h
            exact h.symm
          rw [hqp, hpgid] at hqf
          have hgidf : gid = f.id := by injection hqf
          exact hgid (List.mem_map.mpr ⟨f, hf, hgidf.symm⟩)
      · obtain ⟨q, hq, hqit⟩ := List.mem_map.mp h1
        have hqnone : q.folder_id = none := by
          have := (List.mem_filter.mp hq).2
          simp only [Bool.and_eq_true, beq_iff_eq] at this
          exact this.1
        rw [← hqit] at heq
        simp only [uncatItem, ItemId.page.injEq] at heq
        have hqp : q = p :=
          eq_of_mem_page_id_nodup hpid (List.mem_of_mem_filter hq) hp heq
        rw [hqp, hpgid] at hqnone
        cases hqnone
    simp only [sidebarItems] at hit
    by_cases hds : ds.length > 0
    · rw [if_pos hds] at hit
      rcases List.mem_append.mp hit with h | h
      · exact hmain h
      · simp only [List.mem_singleton] at h
        rw [h] at heq
        simp [trashItem] at heq
    · rw [if_neg hds] at hit
      exact hmain hit

/-- Closed witness for C8\'s amended claim: in the example store the
uncategorized page p3 appears at level 0, and the orphan page (whose
folder 99 does not exist) appears in no sidebar item. -/
theorem C8_sidebar_uncategorized_amended_witness :
    (uncatItem (exPages.get ⟨2, by decide⟩) ∈ sidebarItems exFolders exPages [])
    ∧ ∀ it ∈ sidebarItems [] [orphanPage] [],
        it.id ≠ ItemId.page orphanPage.id :=
  ⟨(C8_sidebar_uncategorized_amended exFolders exPages [] (by decide)).1
      (exPages.get ⟨2, by decide⟩) (by decide) (by decide),
   fun it hit => (C8_sidebar_uncategorized_amended [] [orphanPage] []
      (by decide)).2 orphanPage (by decide) 99 (by decide) (by decide) it hit⟩

theorem parentOf_map_ne (fs : List Folder) (fid : Nat) (np : Option Nat)
    (now i : Nat) (hne : i ≠ fid) :
    parentOf (fs.map (fun g => if g.id == fid then
      { g with parent_id := np, updated_at := now } else g)) i
      = parentOf fs i := by
  induction fs with
  | nil => rfl
  | cons a t ih =>
    by_cases hai : a.id = i
    · have haf : ¬ a.id = fid := by rw [hai]; exact hne
      unfold parentOf
      rw [List.map_cons, List.find?_cons_of_pos _ (by simp [hai, haf, hne]),
        List.find?_cons_of_pos _ (by simp [hai])]
      simp [haf]
    · unfold parentOf at ih ⊢
      rw [List.map_cons,
        List.find?_cons_of_neg _
          (by by_cases h : a.id = fid <;> simp [h, hai, hne.symm]),
        List.find?_cons_of_neg _ (by simp [hai])]
      exact ih

theorem parentOf_map_self (fs : List Folder) (fid : Nat) (np : Option Nat)
    (now : Nat) (hmem : ∃ f ∈ fs, f.id = fid) :
    parentOf (fs.map (fun g => if g.id == fid then
      { g with parent_id := np, updated_at := now } else g)) fid = np := by
  induction fs with
  | nil =>
    obtain ⟨f, hf, _⟩ := hmem
    cases hf
  | cons a t ih =>
    by_cases haf : a.id = fid
    · unfold parentOf
      rw [List.map_cons, List.find?_cons_of_pos _ (by simp [haf])]
      simp [haf]
    · unfold parentOf at ih ⊢
      rw [List.map_cons, List.find?_cons_of_neg _ (by simp [haf])]
      refine ih ?_
      obtain ⟨f, hf, hfid⟩ := hmem
      rcases List.mem_cons.mp hf with rfl | hft
      · exact absurd hfid haf
      · exact ⟨f, hft, hfid⟩

theorem mem_childrenOf {fs : List Folder} {b cur : Nat}
    (h : parentOf fs b = some cur) (hcur : cur ≠ 0) :
    b ∈ childrenOf fs cur := by
  unfold parentOf at h
  cases hf : fs.find? (fun f => f.id == b) with
  | none => rw [hf] at h; cases h
  | some f =>
    rw [hf] at h
    have hmem := List.mem_of_find?_eq_some hf
    have hid : f.id = b := by simpa using List.find?_some hf
    have h' : f.parent_id = some cur := h
    unfold childrenOf
    refine List.mem_map.mpr ⟨f, List.mem_filter.mpr ⟨hmem, ?_⟩, hid⟩
    simp [h', truthyNum, hcur]

theorem chainStep_concat {fs : List Folder} :
    ∀ (l : List Nat) (x y : Nat), chainStep fs (l ++ [x]) →
      l.getLast? = some y → chainStep fs l ∧ parentOf fs y = some x := by
  intro l
  induction l with
  | nil => intro x y _ hy; cases hy
  | cons a t ih =>
    intro x y h hy
    cases t with
    | nil =>
      have hya : y = a := by simpa using hy.symm
      exact ⟨trivial, by rw [hya]; exact h.1⟩
    | cons b t' =>
      have hy' : (b :: t').getLast? = some y := by
        rw [← hy]
        rfl
      obtain ⟨hc, hp⟩ := ih x y h.2 hy'
      exact ⟨⟨h.1, hc⟩, hp⟩

theorem checkDescendant_self (fs : List Folder) (t : Nat) (n : Nat) :
    checkDescendant fs t (n + 1) t = true := by
  simp [checkDescendant]

theorem chain_complete (fs : List Folder) (t : Nat) :
    ∀ (c : List Nat) (cur fuel : Nat), chainStep fs (t :: c) →
      (t :: c).getLast? = some cur → (∀ a ∈ c, a ≠ 0) →
      c.length + 1 ≤ fuel →
      checkDescendant fs t fuel cur = true := by
  intro c
  induction c using List.reverseRecOn with
  | nil =>
    intro cur fuel h hl _hc0 hf
    have hct : cur = t := by simpa using hl.symm
    obtain ⟨n, rfl⟩ : ∃ n, fuel = n + 1 := ⟨fuel - 1, by omega⟩
    rw [hct]
    exact checkDescendant_self fs t n
  | append_singleton c' x ih =>
    intro cur fuel h hl hc0 hf
    have hcur : cur = x := by
      have : (t :: (c' ++ [x])).getLast? = some x := by
        rw [show t :: (c' ++ [x]) = (t :: c') ++ [x] by simp]
        exact List.getLast?_concat _
      rw [this] at hl
      exact (Option.some.inj hl).symm
    obtain ⟨prev, hprev⟩ : ∃ prev, (t :: c').getLast? = some prev := by
      cases hgl : (t :: c').getLast? with
      | none => simp at hgl
      | some p => exact ⟨p, rfl⟩
    obtain ⟨hc, hp⟩ := chainStep_concat (t :: c') x prev
      (by rw [show (t :: c') ++ [x] = t :: (c' ++ [x]) by simp]; exact h) hprev
    have hx0 : x ≠ 0 := hc0 x (by simp)
    have hchild : prev ∈ childrenOf fs x := mem_childrenOf hp hx0
    obtain ⟨n, rfl⟩ : ∃ n, fuel = n + 1 := ⟨fuel - 1, by omega⟩
    rw [hcur]
    by_cases hxt : x = t
    · rw [hxt]
      exact checkDescendant_self fs t n
    · have hlen : c'.length + 1 ≤ n := by
        have := hf
        simp only [List.length_append, List.length_singleton] at this
        omega
      have hrec : checkDescendant fs t n prev = true :=
        ih prev n hc hprev (fun a ha => hc0 a (by simp [ha])) hlen
      have hany : (childrenOf fs x).any (checkDescendant fs t n) = true :=
        List.any_eq_true.mpr ⟨prev, hchild, hrec⟩
      simp [checkDescendant, hxt, hany]

theorem nodup_subset_length {d m : List Nat} (hd : d.Nodup)
    (hsub : ∀ a ∈ d, a ∈ m) : d.length ≤ m.length := by
  have h1 : d.toFinset.card = d.length := List.toFinset_card_of_nodup hd
  have h2 : d.toFinset ⊆ m.toFinset := by
    intro a ha
    exact List.mem_toFinset.mpr (hsub a (List.mem_toFinset.mp ha))
  calc d.length = d.toFinset.card := h1.symm
    _ ≤ m.toFinset.card := Finset.card_le_card h2
    _ ≤ m.length := m.toFinset_card_le

/-- An upward parent chain from `t` to a folder `fid` that has a row makes
the depth-first search `isDescendant(t, fid)` succeed: on acyclic data the
chain is duplicate-free, so the fuel `fs.length + 1` is sufficient. -/
theorem isDescendant_of_chain {fs : List Folder} {t fid : Nat}
    (hacyc : Acyclic fs) (hpos : ∀ f ∈ fs, f.id ≠ 0)
    (hfid : ∃ f ∈ fs, f.id = fid) {c : List Nat}
    (hchain : chainStep fs (t :: c ++ [fid])) :
    isDescendant (.ok fs) t fid = true := by
  have hchain' : chainStep fs ((t :: c) ++ [fid]) := by simpa using hchain
  have hnodup : (t :: c ++ [fid]).Nodup := by
    by_contra hnd
    exact hacyc (chain_nodup_or_cycle _ hchain hnd)
  have hmem : ∀ a ∈ t :: c ++ [fid], ∃ f ∈ fs, f.id = a := by
    intro a ha
    simp only [List.mem_cons, List.mem_append, List.mem_singleton] at ha
    rcases ha with (rfl | ha) | (rfl | h0)
    · exact chain_mem_ids (a :: c) fid hchain' a (by simp)
    · exact chain_mem_ids (t :: c) fid hchain' a (by simp [ha])
    · exact hfid
    · cases h0
  have hsub : ∀ a ∈ t :: c ++ [fid], a ∈ fs.map Folder.id := by
    intro a ha
    obtain ⟨f, hf, hfa⟩ := hmem a ha
    exact List.mem_map.mpr ⟨f, hf, hfa⟩
  have hlen : (t :: c ++ [fid]).length ≤ fs.length := by
    have := nodup_subset_length (m := fs.map Folder.id) hnodup hsub
    simpa using this
  have hc0 : ∀ a ∈ c ++ [fid], a ≠ 0 := by
    intro a ha
    obtain ⟨f, hf, hfa⟩ := hmem a (by simp [ha])
    rw [← hfa]
    exact hpos f hf
  have hlast : (t :: (c ++ [fid])).getLast? = some fid := by
    rw [show t :: (c ++ [fid]) = (t :: c) ++ [fid] by simp]
    exact List.getLast?_concat _
  have hfuel : (c ++ [fid]).length + 1 ≤ fs.length + 1 := by
    have : (t :: c ++ [fid]).length = (c ++ [fid]).length + 1 := by simp
    omega
  have := chain_complete fs t (c ++ [fid]) fid (fs.length + 1)
    hchain hlast hc0 hfuel
  simpa [isDescendant] using this

theorem chainStep_congr {fs fs' : List Folder} :
    ∀ {c : List Nat}, (∀ a ∈ c, parentOf fs' a = parentOf fs a) →
      chainStep fs' c → chainStep fs c := by
  intro c
  induction c with
  | nil => intro _ _; trivial
  | cons a t ih =>
    intro hpar h
    cases t with
    | nil => trivial
    | cons b rest =>
      refine ⟨?_, ih (fun x hx => hpar x (by simp [hx])) h.2⟩
      rw [← hpar a (by simp)]
      exact h.1

theorem chain_extract {fs fs' : List Folder} {fid : Nat}
    (htrans : ∀ x, x ≠ fid → parentOf fs' x = parentOf fs x) :
    ∀ (c : List Nat) (a : Nat), chainStep fs' (a :: c) → fid ∈ c → a ≠ fid →
      ∃ d, chainStep fs (a :: d ++ [fid]) := by
  intro c
  induction c with
  | nil => intro a _ hmem _; cases hmem
  | cons b c' ih =>
    intro a h hmem ha
    have hstep : parentOf fs a = some b := by
      rw [← htrans a ha]
      exact h.1
    by_cases hb : b = fid
    · refine ⟨[], ?_⟩
      rw [hb] at hstep
      exact ⟨hstep, trivial⟩
    · have hmem' : fid ∈ c' := by
        rcases List.mem_cons.mp hmem with h1 | h1
        · exact absurd h1.symm hb
        · exact h1
      obtain ⟨d, hd⟩ := ih b h.2 hmem' hb
      exact ⟨b :: d, ⟨hstep, hd⟩⟩

theorem cycle_through {fs' : List Folder} {i : Nat} {l : List Nat} {fid : Nat}
    (h : chainStep fs' (i :: l ++ [i])) (hmem : fid ∈ i :: l) :
    ∃ m, chainStep fs' (fid :: m ++ [fid]) := by
  rcases List.mem_cons.mp hmem with rfl | hml
  · exact ⟨l, h⟩
  · obtain ⟨s, w, rfl⟩ := List.append_of_mem hml
    have hsuf : chainStep fs' (fid :: (w ++ [i])) := by
      have := chainStep_suffix (i :: s) (fid :: (w ++ [i])) (by simpa using h)
      exact this
    have hpre : chainStep fs' ((i :: s) ++ [fid]) := by
      refine chainStep_front (i :: s) fid (w ++ [i]) ?_
      simpa using h
    have hglue := chainStep_glue (fid :: w) i (s ++ [fid])
      (by simpa using hsuf) (by simpa using hpre)
    refine ⟨w ++ i :: s, ?_⟩
    simpa using hglue

/-- Reparenting folder `fid` to `np` keeps the forest acyclic when `np` is
null or a folder that the depth-first search does not see as a descendant
of `fid`. -/
theorem acyclic_update {fs : List Folder} {fid : Nat} {np : Option Nat}
    {now : Nat} (hacyc : Acyclic fs) (hrow : ∃ f ∈ fs, f.id = fid)
    (hpos : ∀ f ∈ fs, f.id ≠ 0)
    (hnp : np = none ∨ ∃ t, np = some t ∧ isDescendant (.ok fs) t fid = false) :
    Acyclic (fs.map (fun g => if g.id == fid then
      { g with parent_id := np, updated_at := now } else g)) := by
  rintro ⟨i, l, hchain⟩
  by_cases hf : fid ∈ i :: l
  · obtain ⟨m, hcyc⟩ := cycle_through hchain hf
    have hself : parentOf (fs.map (fun g => if g.id == fid then
        { g with parent_id := np, updated_at := now } else g)) fid = np :=
      parentOf_map_self fs fid np now hrow
    cases m with
    | nil =>
      have h1 : parentOf (fs.map (fun g => if g.id == fid then
          { g with parent_id := np, updated_at := now } else g)) fid
          = some fid := hcyc.1
      rw [hself] at h1
      rcases hnp with rfl | ⟨t, rfl, hdesc⟩
      · cases h1
      · have ht : t = fid := Option.some.inj h1
        rw [ht] at hdesc
        have : isDescendant (.ok fs) fid fid = true := by
          simp [isDescendant, checkDescendant]
        rw [this] at hdesc
        cases hdesc
    | cons b rest =>
      have h1 : parentOf (fs.map (fun g => if g.id == fid then
          { g with parent_id := np, updated_at := now } else g)) fid
          = some b := hcyc.1
      rw [hself] at h1
      rcases hnp with rfl | ⟨t, rfl, hdesc⟩
      · cases h1
      · have hb : b = t := (Option.some.inj h1).symm
        subst hb
        by_cases hbf : b = fid
        · rw [hbf] at hdesc
          have : isDescendant (.ok fs) fid fid = true := by
            simp [isDescendant, checkDescendant]
          rw [this] at hdesc
          cases hdesc
        · obtain ⟨d, hd⟩ := chain_extract
            (fun x hx => parentOf_map_ne fs fid (some b) now x hx)
            (rest ++ [fid]) b hcyc.2 (by simp) hbf
          have := isDescendant_of_chain hacyc hpos hrow hd
          rw [this] at hdesc
          cases hdesc
  · have hall : ∀ a ∈ i :: l ++ [i], a ≠ fid := by
      intro a ha hafid
      subst hafid
      rcases List.mem_cons.mp ha with h1 | h1
      · exact hf (by simp [h1])
      · rcases List.mem_append.mp h1 with h2 | h2
        · exact hf (by simp [h2])
        · simp only [List.mem_singleton] at h2
          exact hf (by simp [h2])
    have hold : chainStep fs (i :: l ++ [i]) := by
      refine chainStep_congr ?_ hchain
      intro a ha
      exact parentOf_map_ne fs fid np now a (hall a ha)
    exact hacyc ⟨i, l, hold⟩

theorem single_eq_ok {α : Type} {rows : List α} {r : α}
    (h : single rows = .ok r) : rows = [r] := by
  cases rows with
  | nil => simp [single] at h
  | cons a t =>
    cases t with
    | nil =>
      simp only [single, Except.ok.injEq] at h
      rw [h]
    | cons b t' => simp [single] at h

theorem filter_folder_id_eq_single {l : List Folder} {fid : Nat}
    (hids : (l.map Folder.id).Nodup) {F : Folder} (hF : F ∈ l)
    (hFid : F.id = fid) :
    l.filter (fun f => f.id == fid) = [F] := by
  induction l with
  | nil => cases hF
  | cons a t ih =>
    simp only [List.map_cons, List.nodup_cons] at hids
    rcases List.mem_cons.mp hF with rfl | hFt
    · have ht : t.filter (fun f => f.id == fid) = [] := by
        refine List.filter_eq_nil_iff.mpr ?_
        intro q hq hqp
        simp only [beq_iff_eq] at hqp
        exact hids.1 (List.mem_map.mpr ⟨q, hq, by rw [hqp, hFid]⟩)
      rw [List.filter_cons_of_pos, ht]
      simp [hFid]
    · have hna : ¬(a.id == fid) = true := by
        intro hap
        simp only [beq_iff_eq] at hap
        exact hids.1 (List.mem_map.mpr ⟨F, hFt, by rw [hFid, hap]⟩)
      rw [List.filter_cons_of_neg (by simpa using hna)]
      exact ih hids.2 hFt

/-- A decidable sufficient condition for acyclicity: every folder's parent
id is strictly smaller than its own id. -/
theorem acyclic_of_parent_dec {fs : List Folder}
    (h : fs.all (fun f => match f.parent_id with
      | some j => decide (j < f.id)
      | none => true) = true) : Acyclic fs := by
  have hlt : ∀ i j, parentOf fs i = some j → j < i := by
    intro i j hij
    unfold parentOf at hij
    cases hf : fs.find? (fun f => f.id == i) with
    | none => rw [hf] at hij; cases hij
    | some f =>
      rw [hf] at hij
      have hij' : f.parent_id = some j := hij
      have hmem := List.mem_of_find?_eq_some hf
      have hid : f.id = i := by simpa using List.find?_some hf
      have hall := List.all_eq_true.mp h f hmem
      rw [hij'] at hall
      simp only [decide_eq_true_eq] at hall
      rw [hid] at hall
      exact hall
  have key : ∀ (c : List Nat) (a x : Nat), chainStep fs (a :: c) →
      (a :: c).getLast? = some x → c ≠ [] → x < a := by
    intro c
    induction c with
    | nil => intro a x _ _ hc; exact absurd rfl hc
    | cons b c' ih =>
      intro a x h hl _
      have hba : b < a := hlt a b h.1
      have hl' : (b :: c').getLast? = some x := by
        rw [← hl]
        rfl
      cases c' with
      | nil =>
        have : x = b := by simpa using hl'.symm
        omega
      | cons d c'' =>
        have := ih b x h.2 hl' (by simp)
        omega
  rintro ⟨i, l, hc⟩
  have hlast : (i :: (l ++ [i])).getLast? = some i := by
    rw [show i :: (l ++ [i]) = (i :: l) ++ [i] by simp]
    exact List.getLast?_concat _
  have := key (l ++ [i]) i i hc hlast (by simp)
  omega

/-- C4. Cycle prevention in move-folder: (i) whenever the depth-first
search over the parent adjacency sees `targetParentId` as the folder
itself or one of its descendants, the handler answers 400 and leaves the
store unchanged; (ii) a successful move (status 200, with the real folder
list answering the descendant query) keeps the folder forest acyclic —
no folder ever becomes its own ancestor; (iii) in the 4-level chain
A→B→C→D, moving A under D is rejected with 400 and no parent changes. -/
theorem C4_folder_move_cycle_prevention :
    (∀ (db : DB) (fid t now : Nat), fid ≠ 0 → t ≠ 0 →
      (db.folders.filter (fun f => f.id == t)).length = 1 →
      (db.folders.filter (fun f => f.id == fid)).length = 1 →
      isDescendant (.ok db.folders) t fid = true →
      moveFolder db (.ok db.folders) .POST (some fid) (some t) now
        = ({ status := 400,
             error := some "Cannot move a folder into itself or its descendants" },
           db))
    ∧ (∀ (db : DB) (fid : Nat) (tp : Option Nat) (now : Nat),
      (∀ f ∈ db.folders, f.id ≠ 0) → Acyclic db.folders →
      (moveFolder db (.ok db.folders) .POST (some fid) tp now).1.status = 200 →
      Acyclic (moveFolder db (.ok db.folders) .POST (some fid) tp now).2.folders)
    ∧ moveFolder dbChain (.ok dbChain.folders) .POST (some 1) (some 4) 9
        = ({ status := 400,
             error := some "Cannot move a folder into itself or its descendants" },
           dbChain) := by
  refine ⟨?_, ?_, by decide⟩
  · intro db fid t now hfid0 ht0 htgt hfld hdesc
    obtain ⟨f1, hf1⟩ := List.length_eq_one.mp htgt
    obtain ⟨f2, hf2⟩ := List.length_eq_one.mp hfld
    have h1 : truthyNum (some fid) = true := by simp [truthyNum, hfid0]
    have h2 : truthyNum (some t) = true := by simp [truthyNum, ht0]
    simp [moveFolder, h1, h2, hf1, hf2, single, hdesc]
  · intro db fid tp now hpos hacyc h200
    by_cases hfid0 : fid = 0
    · subst hfid0
      simp [moveFolder, truthyNum] at h200
    · have htr : truthyNum (some fid) = true := by simp [truthyNum, hfid0]
      by_cases htp : truthyNum tp = true
      · cases hst : single (db.folders.filter (fun f => f.id == tp.getD 0)) with
        | error e => simp [moveFolder, htr, htp, hst] at h200
        | ok ftgt =>
          cases hsf : single (db.folders.filter (fun f => f.id == fid)) with
          | error e => simp [moveFolder, htr, htp, hst, hsf] at h200
          | ok fmv =>
            by_cases hdesc : isDescendant (.ok db.folders) (tp.getD 0) fid = true
            · simp [moveFolder, htr, htp, hst, hsf, hdesc] at h200
            · cases hsn : single (db.folders.filter (fun f =>
                  f.name == fmv.name && eqParentFilter tp f && f.id != fid)) with
              | ok fconf =>
                simp [moveFolder, htr, htp, hst, hsf, hdesc, hsn] at h200
              | error e =>
                cases e with
                | multiple =>
                  simp [moveFolder, htr, htp, hst, hsf, hdesc, hsn] at h200
                | pgrst116 =>
                  have hgoal : (moveFolder db (.ok db.folders) .POST
                      (some fid) tp now).2.folders
                      = db.folders.map (fun g => if g.id == fid then
                        { g with parent_id := effFolderId tp,
                                 updated_at := now } else g) := by
                    simp [moveFolder, htr, htp, hst, hsf, hdesc, hsn]
                  rw [hgoal]
                  have hrow : ∃ f ∈ db.folders, f.id = fid := by
                    have hfl := single_eq_ok hsf
                    have hm : fmv ∈ db.folders.filter (fun f => f.id == fid) := by
                      rw [hfl]
                      simp
                    have hmf := List.mem_filter.mp hm
                    exact ⟨fmv, hmf.1, by simpa using hmf.2⟩
                  refine acyclic_update hacyc hrow hpos (Or.inr ?_)
                  refine ⟨tp.getD 0, ?_, ?_⟩
                  · cases tp with
                    | none => simp [truthyNum] at htp
                    | some n =>
                      have hn0 : n ≠ 0 := by simpa [truthyNum] using htp
                      simp [effFolderId, truthyNum, hn0]
                  · simpa using hdesc
      · cases hsf : single (db.folders.filter (fun f => f.id == fid)) with
        | error e => simp [moveFolder, htr, htp, hsf] at h200
        | ok fmv =>
          cases hsn : single (db.folders.filter (fun f =>
              f.name == fmv.name && eqParentFilter tp f && f.id != fid)) with
          | ok fconf => simp [moveFolder, htr, htp, hsf, hsn] at h200
          | error e =>
            cases e with
            | multiple => simp [moveFolder, htr, htp, hsf, hsn] at h200
            | pgrst116 =>
              have hgoal : (moveFolder db (.ok db.folders) .POST
                  (some fid) tp now).2.folders
                  = db.folders.map (fun g => if g.id == fid then
                    { g with parent_id := effFolderId tp,
                             updated_at := now } else g) := by
                simp [moveFolder, htr, htp, hsf, hsn]
              rw [hgoal]
              have hrow : ∃ f ∈ db.folders, f.id = fid := by
                have hfl := single_eq_ok hsf
                have hm : fmv ∈ db.folders.filter (fun f => f.id == fid) := by
                  rw [hfl]
                  simp
                have hmf := List.mem_filter.mp hm
                exact ⟨fmv, hmf.1, by simpa using hmf.2⟩
              have hnone : effFolderId tp = none := by
                simp [effFolderId, htp]
              rw [hnone]
              exact acyclic_update hacyc hrow hpos (Or.inl rfl)

/-- Closed witness for C4: the 4-chain move A-under-D is rejected with the
store unchanged, and a legal move (folder C under folder B in a 3-folder
store) keeps the forest acyclic. -/
theorem C4_folder_move_cycle_prevention_witness :
    moveFolder dbChain (.ok dbChain.folders) .POST (some 1) (some 4) 9
      = ({ status := 400,
           error := some "Cannot move a folder into itself or its descendants" },
         dbChain)
    ∧ Acyclic (moveFolder dbThree (.ok dbThree.folders) .POST
        (some 3) (some 2) 9).2.folders :=
  ⟨C4_folder_move_cycle_prevention.1 dbChain 1 4 9 (by decide) (by decide)
      (by decide) (by decide) (by decide),
   C4_folder_move_cycle_prevention.2.1 dbThree 3 (some 2) 9 (by decide)
      (acyclic_of_parent_dec (by decide)) (by decide)⟩

/-- C10. When the folder-list query inside `isDescendant` errors, the
function returns false, so the handler treats the cycle check as passed:
with an existing target parent and folder and no name conflict, the move
commits the `parent_id` update and answers 200, with no constraint at all
on `targetParentId` — even one lying in the moved folder's descendant
set goes through. -/
theorem C10_desc_query_error_commits (db : DB) (fid t now : Nat) {F : Folder}
    (hfid0 : fid ≠ 0) (ht0 : t ≠ 0)
    (htgt : (db.folders.filter (fun f => f.id == t)).length = 1)
    (hF : F ∈ db.folders) (hFid : F.id = fid)
    (hids : (db.folders.map Folder.id).Nodup)
    (hname : (db.folders.filter (fun f =>
      f.name == F.name && eqParentFilter (some t) f && f.id != fid)).length = 0) :
    isDescendant (.error ()) t fid = false ∧
    moveFolder db (.error ()) .POST (some fid) (some t) now
      = ({ status := 200, success := true },
         { db with folders := db.folders.map (fun g => if g.id == fid then
             { g with parent_id := some t, updated_at := now } else g) }) := by
  obtain ⟨f1, hf1⟩ := List.length_eq_one.mp htgt
  have hfl := filter_folder_id_eq_single hids hF hFid
  have hnamenil : db.folders.filter (fun f =>
      f.name == F.name && eqParentFilter (some t) f && f.id != fid) = [] :=
    List.length_eq_zero.mp hname
  have h1 : truthyNum (some fid) = true := by simp [truthyNum, hfid0]
  have h2 : truthyNum (some t) = true := by simp [truthyNum, ht0]
  refine ⟨rfl, ?_⟩
  simp [moveFolder, h1, h2, hf1, hfl, single, hnamenil, isDescendant,
    effFolderId, truthyNum, ht0, hfid0]

/-- Closed witness for C10: with folders A(1, root) and B(2, parent A) and
the descendant query erroring, moving A under its own descendant B is
committed with status 200, and the resulting folder list has a cycle
(A and B are each other's parent). -/
theorem C10_desc_query_error_commits_witness :
    (moveFolder dbTwo (.error ()) .POST (some 1) (some 2) 9).1
      = { status := 200, success := true } ∧
    HasCycle (moveFolder dbTwo (.error ()) .POST (some 1) (some 2) 9).2.folders := by
  have h := C10_desc_query_error_commits dbTwo 1 2 9
    (F := { id := 1, name := "A", parent_id := none, user_id := 1,
            created_at := 0, updated_at := 0 })
    (by decide) (by decide) (by decide) (by decide) (by decide) (by decide)
    (by decide)
  constructor
  · rw [h.2]
  · rw [h.2]
    exact ⟨1, [2], rfl, rfl, trivial⟩

end Borrd
